import Mathlib

/-!
Verification of the rate-aware incremental ingestion core of the x-monitor
repository, shallowly embedded in Lean 4.

Conventions of the embedding:
* timestamps are abstract integers (seconds); the SQLite layer stores
  RFC3339 strings and compares them lexicographically, which agrees with
  chronological order for the uniform format the code writes, so `Int`
  comparison models the string comparison;
* the SQLite `tweets` table is a list of rows in insertion order, with
  `tweet_id` as primary key (`INSERT OR IGNORE` is an append guarded by a
  key-presence test);
* the `accounts.json` config file is a list of entries in file order;
* provider calls are modelled by their observable result (`CallResult`):
  a successful payload, an `HTTPError` with an optional status code, or
  any other raised exception;
* Python truthiness of optional strings is modelled by `optTruthy`
  (`None` and the empty string are falsy).
-/

/-! ## Python string helpers -/

/-- Truthiness of an optional string in Python: `None` and `""` are falsy. -/
def optTruthy : Option String → Bool
  | some s => !(s == "")
  | none => false

/-- Python `a or b` for an optional string `a` and a string default `b`. -/
def pyOrStr (a : Option String) (b : String) : String :=
  match a with
  | some s => if s == "" then b else s
  | none => b

/-- Python `a or b` on two optional strings. -/
def pyOrOpt (a b : Option String) : Option String :=
  if optTruthy a then a else b

/-- Python `str.strip()`: remove whitespace from both ends. -/
def stripStr (s : String) : String :=
  String.mk (((s.toList.dropWhile Char.isWhitespace).reverse.dropWhile Char.isWhitespace).reverse)

/-- Username normalisation in `XMonitorAgent.add_account` /
`remove_account`: Python `username.lstrip("@").strip()`. -/
def cleanUsername (s : String) : String :=
  stripStr (String.mk (s.toList.dropWhile (fun c => c == '@')))

/-! ## Data model (src/models/tweet.py) -/

/-- Tweet record from `src/models/tweet.py`, restricted to the fields the
ingestion core reads (`created_at` is the item's own creation time). -/
structure Tweet where
  tweet_id : String
  author_username : String
  author_display_name : Option String := none
  content : String := ""
  created_at : Int
  likes : Nat := 0
deriving DecidableEq, Repr

/-- Account record from `src/models/tweet.py` (the monitored-entity view
handed around by the agent). -/
structure Account where
  username : String
  user_id : Option String := none
  display_name : Option String := none
  description : Option String := none
deriving DecidableEq, Repr

/-- Payload of a successful `XScraper.get_user_info` call: the resolved
upstream identifier plus freshly observed metadata. -/
structure ResolvedInfo where
  user_id : String
  display_name : Option String := none
  description : Option String := none
deriving DecidableEq, Repr

/-! ## Item store (src/storage.py, tweets table) -/

/-- One row of the `tweets` table: the tweet fields plus the `fetched_at`
audit column written by `save_tweets`. -/
structure Row where
  tweet : Tweet
  fetched_at : Int
deriving DecidableEq, Repr

/-- The `tweets` table, in insertion order. -/
abbrev Store := List Row

/-- Row with the given primary key present in the table. -/
def containsId (st : Store) (tid : String) : Bool :=
  st.any (fun r => r.tweet.tweet_id == tid)

/-- Number of rows with the given primary key (the schema's PRIMARY KEY
constraint keeps this at most 1 for stores built by `save_tweets`). -/
def countId (st : Store) (tid : String) : Nat :=
  (st.filter (fun r => r.tweet.tweet_id == tid)).length

/-- Loop body of `Storage.save_tweets`: each tweet is written with
`INSERT OR IGNORE` (no-op on a present key); the returned counter is
incremented whenever `db.total_changes` is non-zero, and `total_changes`
is cumulative over the whole connection, not per statement. -/
def save_tweets_aux (now : Int) : List Tweet → Store → Nat → Nat → Store × Nat
  | [], st, _, saved => (st, saved)
  | t :: rest, st, totalChanges, saved =>
    if containsId st t.tweet_id then
      save_tweets_aux now rest st totalChanges (if 0 < totalChanges then saved + 1 else saved)
    else
      save_tweets_aux now rest (st ++ [⟨t, now⟩]) (totalChanges + 1)
        (if 0 < totalChanges + 1 then saved + 1 else saved)

/-- `Storage.save_tweets`: early-out on an empty list, else run the
insert loop on a fresh connection (`total_changes` starts at 0). -/
def save_tweets (now : Int) (st : Store) (tweets : List Tweet) : Store × Nat :=
  if tweets.isEmpty then (st, 0) else save_tweets_aux now tweets st 0 0

/-- Number of distinct tweet ids in the input list that are not yet in
the store: the count of newly persisted items a save actually adds. -/
def newIdCount (st : Store) (tweets : List Tweet) : Nat :=
  ((tweets.map (fun t => t.tweet_id)).dedup.filter (fun tid => !containsId st tid)).length

/-- Ordering used for the time-descending output lists (`ORDER BY
created_at DESC`, and the final sort in `get_tweets_for_accounts`). -/
def tweetGE (x y : Tweet) : Prop := y.created_at ≤ x.created_at

instance : DecidableRel tweetGE :=
  fun x y => inferInstanceAs (Decidable (y.created_at ≤ x.created_at))

instance : IsTotal Tweet tweetGE :=
  ⟨fun a b => le_total b.created_at a.created_at⟩

instance : IsTrans Tweet tweetGE :=
  ⟨fun _ _ _ h1 h2 => le_trans h2 h1⟩

/-- WHERE clause of `Storage.get_tweets_between`: both bounds inclusive,
plus the optional `author_username` filter. -/
def matchesWindow (a b : Int) (u : Option String) (r : Row) : Bool :=
  decide (a ≤ r.tweet.created_at) && decide (r.tweet.created_at ≤ b) &&
    (match u with
     | some n => r.tweet.author_username == n
     | none => true)

/-- `Storage.get_tweets_between`: SELECT rows in the closed window,
optionally filtered by author, ordered by creation time descending. -/
def get_tweets_between (st : Store) (a b : Int) (u : Option String) : List Tweet :=
  List.insertionSort tweetGE ((st.filter (matchesWindow a b u)).map (fun r => r.tweet))

/-- The window query as a state transformer: it returns its result and
the (untouched) store, making read-onlyness expressible. -/
def get_tweets_between_op (st : Store) (a b : Int) (u : Option String) : List Tweet × Store :=
  (get_tweets_between st a b u, st)

/-- SQL `MAX` over a list of timestamps (`NULL`, i.e. `none`, on an empty
set of rows). -/
def maxCreated : List Int → Option Int
  | [] => none
  | x :: xs =>
    match maxCreated xs with
    | none => some x
    | some m => some (max x m)

/-- `Storage.get_last_tweet_time`: `SELECT MAX(created_at) FROM tweets
WHERE author_username = ?`. -/
def get_last_tweet_time (st : Store) (u : String) : Option Int :=
  maxCreated ((st.filter (fun r => r.tweet.author_username == u)).map (fun r => r.tweet.created_at))

/-! ## Watermark resolution (src/agent.py, _build_since_map) -/

/-- Since-bound chosen for one account in `XMonitorAgent._build_since_map`:
the last persisted tweet time if one exists, else `now - 24h`. -/
def sinceFor (now : Int) (st : Store) (u : String) : Int :=
  match get_last_tweet_time st u with
  | some t => t
  | none => now - 86400

/-- `XMonitorAgent._build_since_map`: one since-bound per account, keyed
by username. -/
def build_since_map (now : Int) (st : Store) (accounts : List Account) : List (String × Int) :=
  accounts.map (fun a => (a.username, sinceFor now st a.username))

/-! ## Paced fetch client (src/scrapers/x_scraper.py) -/

/-- Observable result of one provider call: a payload, an `HTTPError`
carrying an optional status code, or any other raised exception. -/
inductive CallResult (α : Type) where
  | ok : α → CallResult α
  | httpErr : Option Nat → CallResult α
  | exn : CallResult α
deriving DecidableEq, Repr

/-- What `XScraper._execute_with_retry` does with the call: hand back the
value, swallow the error and return `None` (skip), or re-raise. -/
inductive RetryOutcome (α : Type) where
  | value : α → RetryOutcome α
  | skipped : RetryOutcome α
  | raised : RetryOutcome α
deriving DecidableEq, Repr

/-- `XScraper._execute_with_retry`: the wrapped function is invoked
exactly once (the second component counts invocations; despite its name
the wrapper has no retry loop). Status 429 and statuses >= 500 are
swallowed and mapped to `None`; any other `HTTPError` (including one
with no response) and any other exception are re-raised. -/
def execute_with_retry {α : Type} : CallResult α → RetryOutcome α × Nat
  | CallResult.ok a => (RetryOutcome.value a, 1)
  | CallResult.httpErr (some s) =>
    if s = 429 then (RetryOutcome.skipped, 1)
    else if 500 ≤ s then (RetryOutcome.skipped, 1)
    else (RetryOutcome.raised, 1)
  | CallResult.httpErr none => (RetryOutcome.raised, 1)
  | CallResult.exn => (RetryOutcome.raised, 1)

/-- The `created_at` field of a raw provider tweet dict: absent (`None`),
a well-formed timestamp string (carrying the parsed instant), or a
malformed string on which `datetime.fromisoformat` raises. -/
inductive TsField where
  | missing : TsField
  | valid : Int → TsField
  | malformed : TsField
deriving DecidableEq, Repr

/-- One raw tweet dict of a provider page, restricted to the fields the
parse loop of `get_recent_tweets` reads. -/
structure RawTweet where
  id : String
  text : String := ""
  ts : TsField := TsField.missing
  isDict : Bool := true
  likes : Nat := 0
deriving DecidableEq, Repr

/-- Timestamp handling in the parse loop: a missing `created_at` falls
back to the current time; a well-formed string parses; a malformed
string raises (`none`). -/
def parseTs (now : Int) : TsField → Option Int
  | TsField.missing => some now
  | TsField.valid t => some t
  | TsField.malformed => none

/-- Construction of one `Tweet` from a raw dict in `get_recent_tweets`. -/
def mkTweet (r : RawTweet) (username : String) (dn : Option String) (t : Int) : Tweet :=
  { tweet_id := r.id, author_username := username, author_display_name := dn,
    content := r.text, created_at := t, likes := r.likes }

/-- Parse loop of `get_recent_tweets` over one page: non-dict entries are
skipped; a raised timestamp parse aborts the loop (second component
`true`), and the Python list mutated so far is what the outer handler
returns, so the aborted tail is dropped. -/
def processRaw (now : Int) (username : String) (dn : Option String) :
    List RawTweet → List Tweet × Bool
  | [] => ([], false)
  | r :: rest =>
    if r.isDict = false then processRaw now username dn rest
    else
      match parseTs now r.ts with
      | none => ([], true)
      | some t =>
        let p := processRaw now username dn rest
        (mkTweet r username dn t :: p.1, p.2)

/-- Posts half of `XScraper.get_recent_tweets`: fetch one page of posts
through the retry wrapper and parse it. Skipped calls, empty pages, and
exceptions reaching the outer catch-all all return the tweets collected
so far (the empty list, as nothing was appended yet) instead of
raising. -/
def postsPhase (username : String) (dn : Option String)
    (postsResp : CallResult (Option (List RawTweet))) (now : Int) : List Tweet :=
  match execute_with_retry postsResp with
  | (RetryOutcome.raised, _) => []
  | (RetryOutcome.skipped, _) => []
  | (RetryOutcome.value none, _) => []
  | (RetryOutcome.value (some raws), _) => (processRaw now username dn raws).1

/-- `XScraper.get_recent_tweets` for one entity: resolve the user id by
handle when no truthy cached id is supplied, then run the posts phase.
Every failure path — skipped call, user not found, or an exception
reaching the outer catch-all — returns a tweet list instead of
raising. -/
def get_recent_tweets (username : String) (user_id : Option String) (display_name : Option String)
    (userResp : CallResult (Option ResolvedInfo))
    (postsResp : CallResult (Option (List RawTweet))) (now : Int) : List Tweet :=
  if optTruthy user_id then
    postsPhase username display_name postsResp now
  else
    match execute_with_retry userResp with
    | (RetryOutcome.raised, _) => []
    | (RetryOutcome.skipped, _) => []
    | (RetryOutcome.value none, _) => []
    | (RetryOutcome.value (some info), _) =>
      postsPhase username (some ((info.display_name).getD username)) postsResp now

/-! ## Batch driver (XScraper.get_tweets_for_accounts) -/

/-- Observable events of a batch run: the cool-down sleep taken every
`rate_limit_batch_size` accounts, the per-entity sleep between
consecutive accounts, and a single-entity fetch. -/
inductive FetchEvent where
  | coolDown : FetchEvent
  | entityDelay : FetchEvent
  | fetch : String → FetchEvent
deriving DecidableEq, Repr

/-- Result of one per-entity fetch as seen by the batch driver: a tweet
list, or an exception escaping `get_recent_tweets`. -/
inductive EntityOutcome where
  | ok : List Tweet → EntityOutcome
  | exn : EntityOutcome
deriving DecidableEq, Repr

/-- Loop body of `get_tweets_for_accounts`: at index `i` (with `N` total
accounts) a cool-down is slept when `i > 0 and i % B == 0`, the entity is
fetched inside a try/except that continues on failure, and a per-entity
delay is slept when `i + 1 < N`. The first component is the event trace,
the second the accumulated tweet list. -/
def drive_aux (f : String → EntityOutcome) (B N : Nat) : Nat → List String → List FetchEvent × List Tweet
  | _, [] => ([], [])
  | i, u :: rest =>
    let cool : List FetchEvent := if 0 < i ∧ i % B = 0 then [FetchEvent.coolDown] else []
    let got : List Tweet :=
      match f u with
      | EntityOutcome.ok ts => ts
      | EntityOutcome.exn => []
    let del : List FetchEvent := if i + 1 < N then [FetchEvent.entityDelay] else []
    let p := drive_aux f B N (i + 1) rest
    (cool ++ FetchEvent.fetch u :: (del ++ p.1), got ++ p.2)

/-- `XScraper.get_tweets_for_accounts`: run the paced loop over the
accounts in list order, then sort the merged result by creation time,
newest first. -/
def get_tweets_for_accounts (f : String → EntityOutcome) (B : Nat) (accounts : List String) :
    List FetchEvent × List Tweet :=
  let p := drive_aux f B accounts.length 0 accounts
  (p.1, List.insertionSort tweetGE p.2)

/-- Count of a given event in a trace. -/
def countEvt (e : FetchEvent) : List FetchEvent → Nat
  | [] => 0
  | x :: rest => (if x = e then 1 else 0) + countEvt e rest

/-- Username of a fetch event, `none` for the delay events. -/
def fetchName : FetchEvent → Option String
  | FetchEvent.fetch u => some u
  | _ => none

/-- Predicate: the event is an entity fetch. -/
def isFetch (e : FetchEvent) : Bool := (fetchName e).isSome

/-- Adjacent-pair property of a paced trace: two consecutive events are
never both entity fetches. -/
def noTwoFetch (a b : FetchEvent) : Prop := isFetch a = false ∨ isFetch b = false

instance : DecidableRel noTwoFetch := fun a b =>
  inferInstanceAs (Decidable (isFetch a = false ∨ isFetch b = false))

/-- Number of indices `j < n` with `j > 0` and `j % B == 0`: the batch
boundaries the driver has crossed after `n` accounts. -/
def multCount (B : Nat) : Nat → Nat
  | 0 => 0
  | n + 1 => multCount B n + (if 0 < n ∧ n % B = 0 then 1 else 0)

/-! ## Entity registry (src/storage.py accounts config, src/agent.py) -/

/-- One entry of the `accounts.json` config file. -/
structure Entry where
  username : String
  note : String := ""
  user_id : Option String := none
  display_name : Option String := none
  description : Option String := none
deriving DecidableEq, Repr

/-- The accounts config file: a list of entries in file order. -/
abbrev ConfigState := List Entry

/-- First config entry with the given username. -/
def findE (cfg : ConfigState) (u : String) : Option Entry :=
  cfg.find? (fun e => e.username == u)

/-- `Storage.get_account`: look the username up in the config and build
the `Account` view (display name and description fall back to the
`note` field). -/
def get_account (cfg : ConfigState) (u : String) : Option Account :=
  match findE cfg u with
  | some e => some { username := u, user_id := e.user_id,
                     display_name := some (pyOrStr e.display_name e.note),
                     description := some (pyOrStr e.description e.note) }
  | none => none

/-- `Storage.add_account`: no-op (still successful) when the username is
already present, otherwise append a new entry; optional fields are only
written when truthy. -/
def storage_add_account (cfg : ConfigState) (a : Account) : ConfigState × Bool :=
  if cfg.any (fun e => e.username == a.username) then (cfg, true)
  else
    (cfg ++ [{ username := a.username,
               note := pyOrStr a.description (pyOrStr a.display_name (String.mk [])),
               user_id := if optTruthy a.user_id then a.user_id else none,
               display_name := if optTruthy a.display_name then a.display_name else none,
               description := if optTruthy a.description then a.description else none }], true)

/-- `XMonitorAgent.add_account` (registerEntity): clean the handle; if it
is already monitored return the existing record with no provider call,
otherwise resolve it upstream (one call) and persist the result. The
third component counts identity-resolution calls issued. -/
def agent_add_account (resolver : String → Option ResolvedInfo) (cfg : ConfigState)
    (username : String) : Option Account × ConfigState × Nat :=
  let u := cleanUsername username
  match get_account cfg u with
  | some existing => (some existing, cfg, 0)
  | none =>
    match resolver u with
    | some info =>
      let acc : Account := { username := u, user_id := some info.user_id,
                             display_name := info.display_name,
                             description := info.description }
      (some acc, (storage_add_account cfg acc).1, 1)
    | none => (none, cfg, 1)

/-- `Storage.get_accounts`: entries whose stripped username is non-empty
become `Account` views. -/
def get_accounts (cfg : ConfigState) : List Account :=
  cfg.filterMap (fun e =>
    let u := stripStr e.username
    if u == "" then none
    else some { username := u, user_id := e.user_id,
                display_name := some (pyOrStr e.display_name e.note),
                description := some (pyOrStr e.description e.note) })

/-- `Storage.update_account_info`: set the cached user id (and, when
truthy, the metadata) on the first entry with the given username. -/
def update_account_info : ConfigState → String → String → Option String → Option String → ConfigState × Bool
  | [], _, _, _, _ => ([], false)
  | e :: rest, u, uid, dn, dsc =>
    if e.username == u then
      ({ e with
          user_id := some uid
          display_name := if optTruthy dn then dn else e.display_name
          description := if optTruthy dsc then dsc else e.description } :: rest, true)
    else
      let p := update_account_info rest u uid dn dsc
      (e :: p.1, p.2)

/-- `XMonitorAgent._ensure_account_info`: walk the in-memory account
list; accounts with a truthy cached id are kept as-is at no cost, the
others are resolved (one provider call each, counted in the third
component); a successful resolution is written to the config file
immediately, before any fetching happens. -/
def ensure_account_info (resolver : String → Option ResolvedInfo) :
    List Account → ConfigState → List Account × ConfigState × Nat
  | [], cfg => ([], cfg, 0)
  | a :: rest, cfg =>
    if optTruthy a.user_id then
      let p := ensure_account_info resolver rest cfg
      (a :: p.1, p.2.1, p.2.2)
    else
      match resolver a.username with
      | some info =>
        if info.user_id == "" then
          let p := ensure_account_info resolver rest cfg
          (a :: p.1, p.2.1, p.2.2 + 1)
        else
          let cfg1 := (update_account_info cfg a.username info.user_id
            info.display_name info.description).1
          let a1 : Account := { a with
            user_id := some info.user_id
            display_name := pyOrOpt info.display_name a.display_name
            description := pyOrOpt info.description a.description }
          let p := ensure_account_info resolver rest cfg1
          (a1 :: p.1, p.2.1, p.2.2 + 1)
      | none =>
        let p := ensure_account_info resolver rest cfg
        (a :: p.1, p.2.1, p.2.2 + 1)

/-- Identity-resolution phase of one ingestion cycle (`run_daily_job`
steps 1): load the accounts and ensure cached ids. -/
def resolve_phase (resolver : String → Option ResolvedInfo) (cfg : ConfigState) :
    List Account × ConfigState × Nat :=
  ensure_account_info resolver (get_accounts cfg) cfg

/-- Resolution calls the fetch phase would issue: `get_recent_tweets`
resolves by handle exactly for accounts without a truthy cached id. -/
def fetch_resolve_calls (accounts : List Account) : Nat :=
  (accounts.filter (fun a => !optTruthy a.user_id)).length

/-- One ingestion cycle, projected to the config state and the number of
identity-resolution calls it issues (resolution phase plus fetch phase;
the fetch phase never writes the config). -/
def run_cycle (resolver : String → Option ResolvedInfo) (cfg : ConfigState) : ConfigState × Nat :=
  let p := resolve_phase resolver cfg
  (p.2.1, p.2.2 + fetch_resolve_calls p.1)

/-- Config state after `n` ingestion cycles. -/
def cycles_state (resolver : String → Option ResolvedInfo) (cfg : ConfigState) : Nat → ConfigState
  | 0 => cfg
  | n + 1 => (run_cycle resolver (cycles_state resolver cfg n)).1

/-- Total identity-resolution calls issued across the first `n` cycles. -/
def total_resolve_calls (resolver : String → Option ResolvedInfo) (cfg : ConfigState) : Nat → Nat
  | 0 => 0
  | n + 1 => total_resolve_calls resolver cfg n
      + (run_cycle resolver (cycles_state resolver cfg n)).2

/-- Registry invariant maintained by `agent_add_account`: usernames are
pairwise distinct, already stripped, and non-empty. -/
def WFConfig (cfg : ConfigState) : Prop :=
  (cfg.map (fun e => e.username)).Nodup ∧
  ∀ e ∈ cfg, stripStr e.username = e.username ∧ e.username ≠ ""

/-- A resolver that succeeds on every handle with a non-empty id (the
provider answers every resolution call). -/
def ResolverOK (resolver : String → Option ResolvedInfo) : Prop :=
  ∀ u, ∃ i, resolver u = some i ∧ i.user_id ≠ ""

/-! ## Helper lemmas for the Item Store -/

theorem contains_of_countId (st : Store) (tid : String) (h : 0 < countId st tid) :
    containsId st tid = true := by
  unfold countId at h
  rcases List.exists_mem_of_length_pos h with ⟨r, hr⟩
  have hm := List.mem_filter.mp hr
  exact List.any_eq_true.mpr ⟨r, hm.1, hm.2⟩

theorem save_tweets_dup (now : Int) (st : Store) (t : Tweet)
    (h : containsId st t.tweet_id = true) :
    save_tweets now st [t] = (st, 0) := by
  simp [save_tweets, save_tweets_aux, h]

/-! ## C3: idempotent persistence -/

/-- C3: inserting a tweet whose `tweet_id` is already present (any
payload) leaves the store unchanged, hence exactly one row for that id,
and every subsequent window query returns the same result as if the
duplicate insert had not happened. -/
theorem save_tweets_idempotent (now a b : Int) (u : Option String) (st : Store) (t : Tweet)
    (h : countId st t.tweet_id = 1) :
    (save_tweets now st [t]).1 = st ∧
    countId (save_tweets now st [t]).1 t.tweet_id = 1 ∧
    get_tweets_between (save_tweets now st [t]).1 a b u = get_tweets_between st a b u := by
  have hc : containsId st t.tweet_id = true := contains_of_countId st _ (by omega)
  rw [save_tweets_dup now st t hc]
  exact ⟨rfl, h, rfl⟩

def tw3 : Tweet := { tweet_id := "1", author_username := "alice", created_at := 10 }

def tw3b : Tweet := { tweet_id := "1", author_username := "alice", content := "changed",
                      created_at := 99, likes := 7 }

def st3 : Store := [⟨tw3, 5⟩]

/-- Witness for C3 at a concrete store and a duplicate with a different
payload. -/
theorem save_tweets_idempotent_witness :
    countId st3 tw3b.tweet_id = 1 ∧
    ((save_tweets 50 st3 [tw3b]).1 = st3 ∧
     countId (save_tweets 50 st3 [tw3b]).1 tw3b.tweet_id = 1 ∧
     get_tweets_between (save_tweets 50 st3 [tw3b]).1 0 100 none
       = get_tweets_between st3 0 100 none) :=
  ⟨by decide, save_tweets_idempotent 50 0 100 none st3 tw3b (by decide)⟩

/-! ## C4: the saved-count bug -/

def tw4old : Tweet := { tweet_id := "1", author_username := "alice", created_at := 10 }

def tw4new : Tweet := { tweet_id := "2", author_username := "alice", created_at := 20 }

def st4 : Store := [⟨tw4old, 5⟩]

/-- C4 (code bug): `save_tweets` gates its counter on the cumulative
`db.total_changes` of the connection, not on the per-statement change
count, so once any insert succeeds every later tweet of the same call —
duplicates included — is counted. Saving a new tweet followed by an
already-present one returns 2 although only 1 new row was persisted,
contradicting the docstring "Returns number of new tweets saved". -/
theorem save_tweets_count_bug :
    (save_tweets 50 st4 [tw4new, tw4old]).2 = 2 ∧ newIdCount st4 [tw4new, tw4old] = 1 := by
  decide

/-! ## C5: quota and server errors are skipped, never retried -/

/-- C5: through the retry wrapper, an HTTP 429 and any HTTP status of at
least 500 yield the skipped outcome (the wrapper returns `None` instead
of raising) with the wrapped call invoked exactly once — never retried —
and a single-entity fetch whose posts call is so rejected returns the
empty list so the batch continues with the next entity. -/
theorem execute_with_retry_skips (s : Nat) (username uid : String) (dn : Option String)
    (ur : CallResult (Option ResolvedInfo)) (now : Int)
    (hs : s = 429 ∨ 500 ≤ s) (hu : uid ≠ "") :
    execute_with_retry (CallResult.httpErr (some s) : CallResult (Option (List RawTweet)))
      = (RetryOutcome.skipped, 1) ∧
    get_recent_tweets username (some uid) dn ur (CallResult.httpErr (some s)) now = [] := by
  have he : execute_with_retry (CallResult.httpErr (some s) : CallResult (Option (List RawTweet)))
      = (RetryOutcome.skipped, 1) := by
    rcases hs with h | h
    · simp [execute_with_retry, h]
    · have h429 : s ≠ 429 := by omega
      simp [execute_with_retry, h429, h]
  have ht : optTruthy (some uid) = true := by
    simp [optTruthy, hu]
  refine ⟨he, ?_⟩
  simp [get_recent_tweets, ht, postsPhase, he]

/-- Witness for C5 at status 429. -/
theorem execute_with_retry_skips_witness :
    ((429 : Nat) = 429 ∨ 500 ≤ (429 : Nat)) ∧ ("u1" : String) ≠ "" ∧
    (execute_with_retry (CallResult.httpErr (some 429) : CallResult (Option (List RawTweet)))
       = (RetryOutcome.skipped, 1) ∧
     get_recent_tweets ("u") (some ("u1")) none CallResult.exn
       (CallResult.httpErr (some 429)) 0 = []) :=
  ⟨Or.inl rfl, by decide,
   execute_with_retry_skips 429 ("u") ("u1") none CallResult.exn 0 (Or.inl rfl) (by decide)⟩

/-! ## C9: timestamp fallback -/

def rtBad : RawTweet := { id := "9", ts := TsField.malformed }

def rtGood : RawTweet := { id := "8", ts := TsField.valid 50 }

/-- C9 counterexample: for an item with a malformed `created_at` string,
`datetime.fromisoformat` raises; the outer catch-all then returns the
tweets collected so far, so the malformed item — and every item after it
on the page — is dropped rather than being assigned the current time and
returned. A page of a malformed item followed by a well-formed one
parses to the empty list. -/
theorem malformed_ts_dropped_cex :
    processRaw 100 ("u") none [rtBad, rtGood] = ([], true) ∧
    get_recent_tweets ("u") (some ("u1")) none (CallResult.ok none)
      (CallResult.ok (some [rtBad, rtGood])) 100 = [] := by
  decide

/-- Conclusion of amended C9: a missing (unknown) `created_at` falls
back to the current time and the item is still returned; a malformed
`created_at` raises, so the item and the rest of the page are dropped
(only the items parsed before it survive). -/
def c9Concl (now : Int) (username : String) (dn : Option String) (r : RawTweet)
    (rest : List RawTweet) : Prop :=
  (r.ts = TsField.missing →
    processRaw now username dn (r :: rest) =
      (mkTweet r username dn now :: (processRaw now username dn rest).1,
       (processRaw now username dn rest).2)) ∧
  (r.ts = TsField.malformed → processRaw now username dn (r :: rest) = ([], true))

/-- C9 amended: the current-time fallback applies only to an absent
(`None`) timestamp, in which case the item is kept; a malformed
timestamp string aborts the parse loop, dropping that item and all later
items of the page, while the fetch call itself still returns normally. -/
theorem timestamp_fallback_amended (now : Int) (username : String) (dn : Option String)
    (r : RawTweet) (rest : List RawTweet) (hd : r.isDict = true) :
    c9Concl now username dn r rest := by
  constructor
  · intro hts
    simp [processRaw, hd, hts, parseTs]
  · intro hts
    simp [processRaw, hd, hts, parseTs]

def rtMiss : RawTweet := { id := "7" }

/-- Witness for amended C9 on a dict item with a missing timestamp. -/
theorem timestamp_fallback_amended_witness :
    rtMiss.isDict = true ∧ c9Concl 100 ("u") none rtMiss [rtBad] :=
  ⟨by decide, timestamp_fallback_amended 100 ("u") none rtMiss [rtBad] (by decide)⟩

/-! ## C6: unexpected errors are absorbed, not propagated -/

def twA : Tweet := { tweet_id := "a1", author_username := "a", created_at := 30 }

def twC : Tweet := { tweet_id := "c1", author_username := "c", created_at := 10 }

/-- Per-entity outcomes for the C6 counterexample: the second of three
accounts raises an unexpected error. -/
def fCex : String → EntityOutcome := fun u =>
  if u == "a" then EntityOutcome.ok [twA]
  else if u == "b" then EntityOutcome.exn
  else EntityOutcome.ok [twC]

/-- C6 counterexample: with entity 2 of 3 raising an unexpected error,
the batch driver's per-entity try/except absorbs it and the cycle runs
to completion — entity 3 is still processed and its tweet appears in the
merged result — contradicting the claim that the error propagates to the
caller and terminates the cycle early. -/
theorem unexpected_error_absorbed_cex :
    (get_tweets_for_accounts fCex 10 ["a", "b", "c"]).2 = [twA, twC] ∧
    twC ∈ (get_tweets_for_accounts fCex 10 ["a", "b", "c"]).2 := by
  decide

/-- Tweets collected by the batch loop: each entity contributes its
fetch result, a raising entity contributes nothing. -/
def collectTweets (f : String → EntityOutcome) : List String → List Tweet
  | [] => []
  | u :: rest =>
    (match f u with
     | EntityOutcome.ok ts => ts
     | EntityOutcome.exn => []) ++ collectTweets f rest

theorem drive_aux_tweets (f : String → EntityOutcome) (B N : Nat) :
    ∀ (l : List String) (i : Nat), (drive_aux f B N i l).2 = collectTweets f l := by
  intro l
  induction l with
  | nil => intro i; rfl
  | cons u rest ih => intro i; simp [drive_aux, collectTweets, ih]

theorem collectTweets_append (f : String → EntityOutcome) :
    ∀ l1 l2, collectTweets f (l1 ++ l2) = collectTweets f l1 ++ collectTweets f l2 := by
  intro l1 l2
  induction l1 with
  | nil => rfl
  | cons u rest ih => simp [collectTweets, ih]

theorem get_recent_tweets_exn (username : String) (uidOpt dn : Option String)
    (ur : CallResult (Option ResolvedInfo)) (now : Int) :
    get_recent_tweets username uidOpt dn ur CallResult.exn now = [] := by
  have hp : ∀ d, postsPhase username d CallResult.exn now = [] := by
    intro d
    simp [postsPhase, execute_with_retry]
  unfold get_recent_tweets
  by_cases ht : optTruthy uidOpt
  · simp [ht, hp]
  · simp [ht]
    rcases hx : execute_with_retry ur with ⟨out, n⟩
    rcases out with a | _ | _
    · rcases a with _ | info
      · simp
      · simp [hp]
    · simp
    · simp

/-- C6 amended: an unexpected error raised during a single-entity fetch
is caught, not propagated — `get_recent_tweets` has a catch-all that
returns the tweets collected so far, and the batch driver catches any
per-entity exception and continues — so a failing entity's presence in
the batch leaves the merged result exactly as if it had been absent, and
the cycle never terminates early. -/
theorem batch_continues_after_unexpected_error
    (f : String → EntityOutcome) (B : Nat) (pre post : List String) (u : String)
    (username : String) (uidOpt dn : Option String)
    (ur : CallResult (Option ResolvedInfo)) (now : Int)
    (h : f u = EntityOutcome.exn) :
    (get_tweets_for_accounts f B (pre ++ u :: post)).2
      = (get_tweets_for_accounts f B (pre ++ post)).2 ∧
    get_recent_tweets username uidOpt dn ur CallResult.exn now = [] := by
  constructor
  · simp only [get_tweets_for_accounts, drive_aux_tweets]
    rw [collectTweets_append, collectTweets_append]
    simp [collectTweets, h]
  · exact get_recent_tweets_exn username uidOpt dn ur now

/-- Witness for amended C6: the concrete three-account batch with the
middle entity raising. -/
theorem batch_continues_after_unexpected_error_witness :
    fCex ("b") = EntityOutcome.exn ∧
    ((get_tweets_for_accounts fCex 10 (["a"] ++ ("b") :: ["c"])).2
       = (get_tweets_for_accounts fCex 10 (["a"] ++ ["c"])).2 ∧
     get_recent_tweets ("x") (some ("u1")) none CallResult.exn CallResult.exn 0 = []) :=
  ⟨by decide,
   batch_continues_after_unexpected_error fCex 10 ["a"] ["c"] ("b") ("x") (some ("u1")) none
     CallResult.exn 0 (by decide)⟩

/-! ## C10: the between-window query -/

/-- Conclusion of C10: the query leaves the store untouched, returns a
permutation of exactly the rows matching the closed window and the
optional author filter, sorted by creation time descending; membership
is characterised pointwise. -/
def c10Concl (st : Store) (a b : Int) (u : Option String) (t0 : Tweet) : Prop :=
  (get_tweets_between_op st a b u).2 = st ∧
  (get_tweets_between st a b u).Perm ((st.filter (matchesWindow a b u)).map (fun r => r.tweet)) ∧
  List.Sorted tweetGE (get_tweets_between st a b u) ∧
  (t0 ∈ get_tweets_between st a b u ↔
    ∃ r ∈ st, r.tweet = t0 ∧ a ≤ t0.created_at ∧ t0.created_at ≤ b ∧
      ∀ n, u = some n → t0.author_username = n)

/-- C10: for `start <= end` and an optional username filter, the
between-window query returns exactly the persisted tweets with
`start <= created_at <= end` (both bounds inclusive) matching the
filter, sorted by `created_at` descending, and modifies no stored
state. -/
theorem window_query_spec (st : Store) (a b : Int) (u : Option String) (t0 : Tweet)
    (_h : a ≤ b) : c10Concl st a b u t0 := by
  refine ⟨rfl, List.perm_insertionSort tweetGE _, List.sorted_insertionSort tweetGE _, ?_⟩
  have hmem : t0 ∈ get_tweets_between st a b u ↔
      ∃ r, (r ∈ st ∧ matchesWindow a b u r = true) ∧ r.tweet = t0 := by
    unfold get_tweets_between
    rw [List.mem_insertionSort tweetGE]
    simp [List.mem_map, List.mem_filter]
  rw [hmem]
  constructor
  · rintro ⟨r, ⟨hrs, hmw⟩, hrt⟩
    unfold matchesWindow at hmw
    rw [Bool.and_eq_true, Bool.and_eq_true] at hmw
    rcases hmw with ⟨⟨h1, h2⟩, h3⟩
    refine ⟨r, hrs, hrt, ?_, ?_, ?_⟩
    · rw [← hrt]; exact of_decide_eq_true h1
    · rw [← hrt]; exact of_decide_eq_true h2
    · intro n hn
      rw [hn] at h3
      rw [← hrt]
      exact eq_of_beq h3
  · rintro ⟨r, hrs, hrt, h1, h2, h3⟩
    refine ⟨r, ⟨hrs, ?_⟩, hrt⟩
    unfold matchesWindow
    rw [Bool.and_eq_true, Bool.and_eq_true]
    refine ⟨⟨?_, ?_⟩, ?_⟩
    · exact decide_eq_true (by rw [hrt]; exact h1)
    · exact decide_eq_true (by rw [hrt]; exact h2)
    · cases u with
      | none => rfl
      | some n =>
        have := h3 n rfl
        rw [hrt]
        exact beq_iff_eq.mpr this

def tw10a : Tweet := { tweet_id := "1", author_username := "alice", created_at := 10 }

def tw10b : Tweet := { tweet_id := "2", author_username := "bob", created_at := 20 }

def st10 : Store := [⟨tw10a, 1⟩, ⟨tw10b, 2⟩]

/-- Witness for C10 on a concrete two-row store. -/
theorem window_query_spec_witness :
    (5 : Int) ≤ 25 ∧ c10Concl st10 5 25 (some ("bob")) tw10b :=
  ⟨by norm_num, window_query_spec st10 5 25 (some ("bob")) tw10b (by norm_num)⟩

/-! ## Watermark helper lemmas -/

theorem maxCreated_eq_none : ∀ (l : List Int), maxCreated l = none ↔ l = [] := by
  intro l
  cases l with
  | nil => simp [maxCreated]
  | cons x xs =>
    simp only [maxCreated]
    cases maxCreated xs with
    | none => simp
    | some m => simp

theorem maxCreated_spec : ∀ (l : List Int) (m : Int), maxCreated l = some m →
    m ∈ l ∧ ∀ x ∈ l, x ≤ m := by
  intro l
  induction l with
  | nil => intro m h; cases h
  | cons x xs ih =>
    intro m h
    unfold maxCreated at h
    cases hx : maxCreated xs with
    | none =>
      rw [hx] at h
      have hxs : xs = [] := (maxCreated_eq_none xs).mp hx
      cases h
      subst hxs
      refine ⟨List.mem_singleton.mpr rfl, ?_⟩
      intro y hy
      rw [List.mem_singleton.mp hy]
    | some m' =>
      rw [hx] at h
      cases h
      rcases ih m' hx with ⟨hm'm, hall⟩
      constructor
      · rcases max_choice x m' with hc | hc
        · rw [hc]; exact List.mem_cons_self _ _
        · rw [hc]; exact List.mem_cons_of_mem _ hm'm
      · intro y hy
        rcases List.mem_cons.mp hy with rfl | hy'
        · exact le_max_left _ _
        · exact le_trans (hall y hy') (le_max_right _ _)

/-! ## C2: per-account since bound -/

/-- Conclusion of C2: the since map assigns every account a value (never
"fetch nothing"); when the account has persisted tweets the value is
their maximum `created_at`, otherwise it is `now - 24h`. -/
def c2Concl (now : Int) (st : Store) (accounts : List Account) (u : String) : Prop :=
  (build_since_map now st accounts).lookup u = some (sinceFor now st u) ∧
  ((∃ r ∈ st, r.tweet.author_username = u) →
    (∃ r ∈ st, r.tweet.author_username = u ∧ sinceFor now st u = r.tweet.created_at) ∧
    ∀ r ∈ st, r.tweet.author_username = u → r.tweet.created_at ≤ sinceFor now st u) ∧
  ((¬ ∃ r ∈ st, r.tweet.author_username = u) → sinceFor now st u = now - 86400)

/-- C2: for every monitored account, the since bound of the next fetch
is the maximum `created_at` over the persisted tweets it owns when any
exist, and `now - 24h` when none exist; the no-data case still yields a
bound (it is neither "fetch nothing" nor an error). -/
theorem since_map_watermark (now : Int) (st : Store) (accounts : List Account) (u : String)
    (hu : u ∈ accounts.map (fun a => a.username)) : c2Concl now st accounts u := by
  refine ⟨?_, ?_, ?_⟩
  · induction accounts with
    | nil => cases hu
    | cons a rest ih =>
      by_cases hau : a.username = u
      · show List.lookup u ((a.username, sinceFor now st a.username)
            :: build_since_map now st rest) = some (sinceFor now st u)
        rw [hau]
        simp [List.lookup]
      · have hu' : u ∈ rest.map (fun a => a.username) := by
          rcases List.mem_map.mp hu with ⟨a', ha', hua'⟩
          rcases List.mem_cons.mp ha' with rfl | ha''
          · exact absurd hua' hau
          · exact List.mem_map.mpr ⟨a', ha'', hua'⟩
        show List.lookup u ((a.username, sinceFor now st a.username)
            :: build_since_map now st rest) = some (sinceFor now st u)
        have hne : (u == a.username) = false := by
          exact beq_eq_false_iff_ne.mpr (fun hx => hau hx.symm)
        simp [List.lookup, hne]
        exact ih hu'
  · intro hex
    rcases hex with ⟨r0, hr0, ha0⟩
    have hmem : r0.tweet.created_at ∈
        (st.filter (fun r => r.tweet.author_username == u)).map (fun r => r.tweet.created_at) :=
      List.mem_map.mpr ⟨r0, List.mem_filter.mpr ⟨hr0, beq_iff_eq.mpr ha0⟩, rfl⟩
    have hne : (st.filter (fun r => r.tweet.author_username == u)).map
        (fun r => r.tweet.created_at) ≠ [] := by
      intro he
      rw [he] at hmem
      cases hmem
    cases hm : maxCreated ((st.filter (fun r => r.tweet.author_username == u)).map
        (fun r => r.tweet.created_at)) with
    | none => exact absurd ((maxCreated_eq_none _).mp hm) hne
    | some m =>
      rcases maxCreated_spec _ m hm with ⟨hmmem, hmax⟩
      have hsf : sinceFor now st u = m := by
        simp [sinceFor, get_last_tweet_time, hm]
      constructor
      · rcases List.mem_map.mp hmmem with ⟨r, hrf, hrc⟩
        rcases List.mem_filter.mp hrf with ⟨hrs, hrau⟩
        exact ⟨r, hrs, beq_iff_eq.mp hrau, by rw [hsf, ← hrc]⟩
      · intro r hr hau
        rw [hsf]
        exact hmax _ (List.mem_map.mpr ⟨r, List.mem_filter.mpr ⟨hr, beq_iff_eq.mpr hau⟩, rfl⟩)
  · intro hnex
    have hf : st.filter (fun r => r.tweet.author_username == u) = [] := by
      rw [List.filter_eq_nil_iff]
      intro r hr hb
      exact hnex ⟨r, hr, beq_iff_eq.mp hb⟩
    simp [sinceFor, get_last_tweet_time, hf, maxCreated]

def acc2 : Account := { username := "alice" }

def acc2b : Account := { username := "bob" }

/-- Witness for C2 with one account holding persisted tweets and one
without. -/
theorem since_map_watermark_witness :
    ("alice" : String) ∈ ([acc2, acc2b].map (fun a => a.username)) ∧
    c2Concl 1000 st10 [acc2, acc2b] ("alice") :=
  ⟨by decide, since_map_watermark 1000 st10 [acc2, acc2b] ("alice") (by decide)⟩

/-! ## Registry helper lemmas -/

theorem find_append_none (p : Entry → Bool) :
    ∀ (l1 l2 : List Entry), l1.find? p = none → (l1 ++ l2).find? p = l2.find? p := by
  intro l1 l2
  induction l1 with
  | nil => intro _; rfl
  | cons e rest ih =>
    intro h
    rw [List.cons_append]
    cases hp : p e with
    | true => simp [List.find?, hp] at h
    | false =>
      simp only [List.find?, hp] at h ⊢
      exact ih h

theorem get_account_after_add (cfg : ConfigState) (acc : Account)
    (hfind : findE cfg acc.username = none) :
    (get_account ((storage_add_account cfg acc).1) acc.username).isSome = true := by
  have hany : cfg.any (fun e => e.username == acc.username) = false := by
    rw [Bool.eq_false_iff]
    intro hx
    rcases List.any_eq_true.mp hx with ⟨e, he, hb⟩
    exact (List.find?_eq_none.mp hfind e he) hb
  unfold storage_add_account
  simp only [hany, Bool.false_eq_true, if_false]
  unfold get_account findE
  rw [find_append_none _ _ _ hfind]
  simp [List.find?]

/-! ## C7: idempotent registration -/

/-- Conclusion of C7: registering a handle already in the monitored set
returns the existing record, issues no resolution call, and leaves the
config unchanged; and on any config, the config state after registering
the same handle twice equals the state after registering it once. -/
def c7Concl (resolver : String → Option ResolvedInfo) (cfg cfg2 : ConfigState)
    (username : String) (a : Account) : Prop :=
  agent_add_account resolver cfg username = (some a, cfg, 0) ∧
  (agent_add_account resolver (agent_add_account resolver cfg2 username).2.1 username).2.1
    = (agent_add_account resolver cfg2 username).2.1

/-- C7: `add_account` (registerEntity) is idempotent — an
already-monitored handle is returned as-is with zero upstream resolution
calls and an unchanged monitored set, and registering twice yields the
same monitored set as registering once. -/
theorem register_idempotent (resolver : String → Option ResolvedInfo)
    (cfg cfg2 : ConfigState) (username : String) (a : Account)
    (h : get_account cfg (cleanUsername username) = some a) :
    c7Concl resolver cfg cfg2 username a := by
  constructor
  · simp [agent_add_account, h]
  · cases hg : get_account cfg2 (cleanUsername username) with
    | some a2 => simp [agent_add_account, hg]
    | none =>
      cases hr : resolver (cleanUsername username) with
      | none => simp [agent_add_account, hg, hr]
      | some info =>
        have hfind : findE cfg2 (cleanUsername username) = none := by
          unfold get_account at hg
          cases hf : findE cfg2 (cleanUsername username) with
          | none => rfl
          | some e =>
            rw [hf] at hg
            cases hg
        simp only [agent_add_account, hg, hr]
        have hiso := get_account_after_add cfg2
          { username := cleanUsername username, user_id := some info.user_id,
            display_name := info.display_name, description := info.description } hfind
        cases hga : get_account ((storage_add_account cfg2
            { username := cleanUsername username, user_id := some info.user_id,
              display_name := info.display_name, description := info.description }).1)
            (cleanUsername username) with
        | none =>
          rw [hga] at hiso
          cases hiso
        | some a3 => simp [agent_add_account, hga]

def res7 : String → Option ResolvedInfo := fun _ => some { user_id := "id9" }

def ent7 : Entry := { username := "bob", note := "n" }

def cfg7 : ConfigState := [ent7]

def acc7 : Account := { username := "bob", user_id := none,
                        display_name := some ("n"), description := some ("n") }

/-- Witness for C7: a config already holding the handle, plus the
twice-equals-once property exercised on the empty config. -/
theorem register_idempotent_witness :
    get_account cfg7 (cleanUsername ("bob")) = some acc7 ∧
    c7Concl res7 cfg7 [] ("bob") acc7 :=
  ⟨by decide, register_idempotent res7 cfg7 [] ("bob") acc7 (by decide)⟩

/-! ## Batch pacing helper lemmas -/

theorem countEvt_append (e : FetchEvent) :
    ∀ l1 l2, countEvt e (l1 ++ l2) = countEvt e l1 + countEvt e l2 := by
  intro l1 l2
  induction l1 with
  | nil => simp [countEvt]
  | cons x rest ih => simp [countEvt, ih]; omega

theorem countEvt_ite_self (e : FetchEvent) (c : Prop) [Decidable c] :
    countEvt e (if c then [e] else []) = if c then 1 else 0 := by
  by_cases h : c <;> simp [h, countEvt]

theorem countEvt_ite_other (e x : FetchEvent) (hne : x ≠ e) (c : Prop) [Decidable c] :
    countEvt e (if c then [x] else []) = 0 := by
  by_cases h : c <;> simp [h, countEvt, hne]

theorem countEvt_cons_other (e x : FetchEvent) (hne : x ≠ e) (l : List FetchEvent) :
    countEvt e (x :: l) = countEvt e l := by
  simp [countEvt, hne]

theorem multCount_eq_div (B : Nat) (_hB : 0 < B) : ∀ n, multCount B n = (n - 1) / B := by
  intro n
  induction n with
  | zero => simp [multCount]
  | succ n ih =>
    unfold multCount
    rw [ih]
    cases n with
    | zero => simp
    | succ m =>
      have h1 : m + 1 - 1 = m := rfl
      have h2 : m + 1 + 1 - 1 = m + 1 := rfl
      by_cases hd : (m + 1) % B = 0
      · rw [if_pos ⟨Nat.succ_pos m, hd⟩, h1, h2, Nat.succ_div,
          if_pos (Nat.dvd_of_mod_eq_zero hd)]
      · have hdvd : ¬ B ∣ m + 1 := fun hx => hd (Nat.mod_eq_zero_of_dvd hx)
        rw [if_neg (fun hx => hd hx.2), h1, h2, Nat.succ_div, if_neg hdvd]

/-- Head unfolding of the driver loop. -/
theorem drive_aux_trace (f : String → EntityOutcome) (B N i : Nat) (u : String)
    (rest : List String) :
    (drive_aux f B N i (u :: rest)).1 =
      (if 0 < i ∧ i % B = 0 then [FetchEvent.coolDown] else []) ++
      FetchEvent.fetch u :: ((if i + 1 < N then [FetchEvent.entityDelay] else []) ++
        (drive_aux f B N (i + 1) rest).1) := rfl

theorem drive_aux_cool (f : String → EntityOutcome) (B N : Nat) :
    ∀ (l : List String) (i : Nat),
      countEvt FetchEvent.coolDown (drive_aux f B N i l).1 + multCount B i
        = multCount B (i + l.length) := by
  intro l
  induction l with
  | nil => intro i; simp [drive_aux, countEvt]
  | cons u rest ih =>
    intro i
    rw [drive_aux_trace, countEvt_append, countEvt_ite_self,
      countEvt_cons_other _ _ (fun hx => FetchEvent.noConfusion hx), countEvt_append,
      countEvt_ite_other _ _ (fun hx => FetchEvent.noConfusion hx)]
    have hrec := ih (i + 1)
    have harith : i + 1 + rest.length = i + (u :: rest).length := by simp; omega
    rw [harith] at hrec
    have hm : multCount B (i + 1) = multCount B i + (if 0 < i ∧ i % B = 0 then 1 else 0) := rfl
    omega

theorem drive_aux_delay (f : String → EntityOutcome) (B : Nat) :
    ∀ (l : List String) (i N : Nat), i + l.length = N →
      countEvt FetchEvent.entityDelay (drive_aux f B N i l).1 = l.length - 1 := by
  intro l
  induction l with
  | nil => intro i N _; simp [drive_aux, countEvt]
  | cons u rest ih =>
    intro i N h
    rw [drive_aux_trace, countEvt_append]
    cases rest with
    | nil =>
      have hd : ¬ (i + 1 < N) := by simp at h; omega
      by_cases hc : 0 < i ∧ i % B = 0 <;>
        simp [hc, hd, countEvt, countEvt_append, drive_aux]
    | cons v rest' =>
      have hlen : (u :: v :: rest').length = rest'.length + 2 := by simp
      have hd : i + 1 < N := by rw [hlen] at h; omega
      have hT := ih (i + 1) N (by simp at h ⊢; omega)
      by_cases hc : 0 < i ∧ i % B = 0 <;>
        simp [hc, hd, countEvt, countEvt_append, hT] <;> omega

theorem drive_aux_order (f : String → EntityOutcome) (B N : Nat) :
    ∀ (l : List String) (i : Nat),
      (drive_aux f B N i l).1.filterMap fetchName = l := by
  intro l
  induction l with
  | nil => intro i; rfl
  | cons u rest ih =>
    intro i
    rw [drive_aux_trace]
    by_cases hc : 0 < i ∧ i % B = 0 <;> by_cases hd : i + 1 < N <;>
      simp [hc, hd, List.filterMap_append, List.filterMap_cons, fetchName, ih]

theorem chain_delay_cons (T : List FetchEvent) (h : List.Chain' noTwoFetch T) :
    List.Chain' noTwoFetch (FetchEvent.entityDelay :: T) := by
  cases T with
  | nil => simp
  | cons x xs =>
    rw [List.chain'_cons]
    exact ⟨Or.inl rfl, h⟩

theorem drive_aux_chain (f : String → EntityOutcome) (B : Nat) :
    ∀ (l : List String) (i N : Nat), i + l.length = N →
      List.Chain' noTwoFetch (drive_aux f B N i l).1 := by
  intro l
  induction l with
  | nil => intro i N _; simp [drive_aux]
  | cons u rest ih =>
    intro i N h
    cases rest with
    | nil =>
      have hd : ¬ (i + 1 < N) := by simp at h; omega
      by_cases hc : 0 < i ∧ i % B = 0 <;>
        simp [drive_aux_trace, hc, hd, drive_aux, List.chain'_cons, noTwoFetch, isFetch, fetchName]
    | cons v rest' =>
      have hlen : (u :: v :: rest').length = rest'.length + 2 := by simp
      have hd : i + 1 < N := by rw [hlen] at h; omega
      have hT := ih (i + 1) N (by simp at h ⊢; omega)
      have hch : List.Chain' noTwoFetch (FetchEvent.fetch u :: FetchEvent.entityDelay ::
          (drive_aux f B N (i + 1) (v :: rest')).1) := by
        rw [List.chain'_cons]
        exact ⟨Or.inr rfl, chain_delay_cons _ hT⟩
      by_cases hc : 0 < i ∧ i % B = 0
      · rw [drive_aux_trace, if_pos hc, if_pos hd]
        rw [List.singleton_append, List.chain'_cons]
        refine ⟨Or.inl rfl, ?_⟩
        rw [List.singleton_append]
        exact hch
      · rw [drive_aux_trace, if_neg hc, if_pos hd]
        rw [List.nil_append, List.singleton_append]
        exact hch

/-! ## C1: batch pacing -/

/-- Conclusion of C1: with N accounts and batch size B, the trace holds
exactly `ceil(N/B) - 1` cool-down delays (written `(N + B - 1) / B - 1`
in natural division) and `N - 1` per-entity delays; the fetches occur in
list order, and no two fetch events are adjacent (every pair of
consecutive fetches has an intervening delay). -/
def c1Concl (f : String → EntityOutcome) (B : Nat) (accounts : List String) : Prop :=
  countEvt FetchEvent.coolDown (get_tweets_for_accounts f B accounts).1
    = (accounts.length + B - 1) / B - 1 ∧
  countEvt FetchEvent.entityDelay (get_tweets_for_accounts f B accounts).1
    = accounts.length - 1 ∧
  (get_tweets_for_accounts f B accounts).1.filterMap fetchName = accounts ∧
  List.Chain' noTwoFetch (get_tweets_for_accounts f B accounts).1

/-- C1: the batch driver over N accounts with batch size B (N > B > 0)
inserts exactly `ceil(N/B) - 1` cool-down delays and `N - 1` per-entity
delays, processes the accounts sequentially in list order, and never
issues two entity fetches without an intervening delay. -/
theorem batch_pacing (f : String → EntityOutcome) (B : Nat) (accounts : List String)
    (hB : 0 < B) (hN : B < accounts.length) : c1Concl f B accounts := by
  have hlen : 0 < accounts.length := lt_of_le_of_lt (Nat.zero_le B) hN
  have htr : (get_tweets_for_accounts f B accounts).1
      = (drive_aux f B accounts.length 0 accounts).1 := rfl
  refine ⟨?_, ?_, ?_, ?_⟩
  · rw [htr]
    have h0 := drive_aux_cool f B accounts.length accounts 0
    rw [Nat.zero_add] at h0
    have hz : multCount B 0 = 0 := rfl
    rw [hz, Nat.add_zero] at h0
    rw [h0, multCount_eq_div B hB]
    have hrw : accounts.length + B - 1 = (accounts.length - 1) + B := by omega
    rw [hrw, Nat.add_div_right _ hB, Nat.add_sub_cancel]
  · rw [htr]
    exact drive_aux_delay f B accounts 0 accounts.length (by omega)
  · rw [htr]
    exact drive_aux_order f B accounts.length accounts 0
  · rw [htr]
    exact drive_aux_chain f B accounts 0 accounts.length (by omega)

def f0 : String → EntityOutcome := fun _ => EntityOutcome.ok []

/-- Witness for C1: two accounts, batch size one. -/
theorem batch_pacing_witness :
    0 < 1 ∧ 1 < (["a", "b"] : List String).length ∧ c1Concl f0 1 ["a", "b"] :=
  ⟨Nat.one_pos, by decide, batch_pacing f0 1 ["a", "b"] Nat.one_pos (by decide)⟩

/-! ## Identity-caching helper lemmas -/

/-- Account view of a config entry (the body of `get_accounts` once the
username is known to be stripped and non-empty). -/
def toAcc (e : Entry) : Account :=
  { username := e.username, user_id := e.user_id,
    display_name := some (pyOrStr e.display_name e.note),
    description := some (pyOrStr e.description e.note) }

theorem get_accounts_wf :
    ∀ cfg : ConfigState,
      (∀ e ∈ cfg, stripStr e.username = e.username ∧ e.username ≠ "") →
      get_accounts cfg = cfg.map toAcc := by
  intro cfg
  induction cfg with
  | nil => intro _; rfl
  | cons e rest ih =>
    intro h
    rcases h e (List.mem_cons_self e rest) with ⟨hs, hne⟩
    have hz : (stripStr e.username == "") = false := by
      rw [hs]
      exact beq_eq_false_iff_ne.mpr hne
    unfold get_accounts
    simp only [List.filterMap_cons, hz, Bool.false_eq_true, if_false]
    rw [hs]
    have hrest : rest.filterMap _ = rest.map toAcc :=
      ih (fun e2 he2 => h e2 (List.mem_cons_of_mem e he2))
    rw [List.map_cons]
    exact congrArg (fun l => toAcc e :: l) hrest

theorem update_map_username (u uid : String) (dn dsc : Option String) :
    ∀ cfg : ConfigState,
      ((update_account_info cfg u uid dn dsc).1).map (fun e => e.username)
        = cfg.map (fun e => e.username) := by
  intro cfg
  induction cfg with
  | nil => rfl
  | cons e rest ih =>
    cases he : (e.username == u) with
    | true => simp [update_account_info, he]
    | false => simp [update_account_info, he, ih]

theorem update_findE_other (u uid v : String) (dn dsc : Option String) (hne : v ≠ u) :
    ∀ cfg : ConfigState,
      findE (update_account_info cfg u uid dn dsc).1 v = findE cfg v := by
  intro cfg
  induction cfg with
  | nil => rfl
  | cons e rest ih =>
    cases he : (e.username == u) with
    | true =>
      have heu : e.username = u := beq_iff_eq.mp he
      have hev : (e.username == v) = false :=
        beq_eq_false_iff_ne.mpr (fun hx => hne (hx.symm.trans heu))
      simp [update_account_info, he, findE, List.find?, hev]
    | false =>
      cases hv : (e.username == v) with
      | true => simp [update_account_info, he, findE, List.find?, hv]
      | false =>
        simp only [update_account_info, he, Bool.false_eq_true, if_false, findE,
          List.find?, hv]
        exact ih

theorem update_findE_self (u uid : String) (dn dsc : Option String) :
    ∀ (cfg : ConfigState) (e : Entry), findE cfg u = some e →
      ∃ e2, findE (update_account_info cfg u uid dn dsc).1 u = some e2 ∧
        e2.user_id = some uid := by
  intro cfg
  induction cfg with
  | nil => intro e h; cases h
  | cons e0 rest ih =>
    intro e h
    cases he : (e0.username == u) with
    | true =>
      refine ⟨{ e0 with
        user_id := some uid
        display_name := if optTruthy dn then dn else e0.display_name
        description := if optTruthy dsc then dsc else e0.description }, ?_, rfl⟩
      simp [update_account_info, he, findE, List.find?]
    | false =>
      have h' : findE rest u = some e := by
        unfold findE at h
        simp only [List.find?, he] at h
        exact h
      rcases ih e h' with ⟨e2, hf2, hid2⟩
      refine ⟨e2, ?_, hid2⟩
      simp only [update_account_info, he, Bool.false_eq_true, if_false, findE,
        List.find?]
      exact hf2

theorem findE_self_of_nodup :
    ∀ cfg : ConfigState, (cfg.map (fun e => e.username)).Nodup →
      ∀ e ∈ cfg, findE cfg e.username = some e := by
  intro cfg
  induction cfg with
  | nil => intro _ e he; cases he
  | cons e0 rest ih =>
    intro hnd e he
    have hnd0 : (∀ x ∈ rest, ¬ x.username = e0.username) ∧
        (rest.map (fun e => e.username)).Nodup := by
      simpa using hnd
    rcases List.mem_cons.mp he with rfl | he'
    · simp [findE, List.find?]
    · have hne : e0.username ≠ e.username :=
        fun hx => hnd0.1 e he' hx.symm
      have hb : (e0.username == e.username) = false := beq_eq_false_iff_ne.mpr hne
      simp only [findE, List.find?, hb]
      exact ih hnd0.2 e he'

theorem ensure_cfg_username (resolver : String → Option ResolvedInfo) :
    ∀ (accounts : List Account) (cfg : ConfigState),
      ((ensure_account_info resolver accounts cfg).2.1).map (fun e => e.username)
        = cfg.map (fun e => e.username) := by
  intro accounts
  induction accounts with
  | nil => intro cfg; rfl
  | cons a rest ih =>
    intro cfg
    cases ht : optTruthy a.user_id with
    | true => simp [ensure_account_info, ht, ih]
    | false =>
      cases hr : resolver a.username with
      | none => simp [ensure_account_info, ht, hr, ih]
      | some info =>
        cases hz : (info.user_id == "") with
        | true => simp [ensure_account_info, ht, hr, hz, ih]
        | false =>
          simp only [ensure_account_info, ht, hr, hz, Bool.false_eq_true, if_false]
          rw [ih, update_map_username]

theorem ensure_findE_other (resolver : String → Option ResolvedInfo) :
    ∀ (accounts : List Account) (cfg : ConfigState) (v : String),
      v ∉ accounts.map (fun a => a.username) →
      findE (ensure_account_info resolver accounts cfg).2.1 v = findE cfg v := by
  intro accounts
  induction accounts with
  | nil => intro cfg v _; rfl
  | cons a rest ih =>
    intro cfg v hv
    have hv1 : v ≠ a.username := fun hx => hv (by simp [hx])
    have hv2 : v ∉ rest.map (fun a => a.username) := fun hx => hv (by simp [hx])
    cases ht : optTruthy a.user_id with
    | true =>
      simp only [ensure_account_info, ht, if_true]
      exact ih cfg v hv2
    | false =>
      cases hr : resolver a.username with
      | none =>
        simp only [ensure_account_info, ht, hr, Bool.false_eq_true, if_false]
        exact ih cfg v hv2
      | some info =>
        cases hz : (info.user_id == "") with
        | true =>
          simp only [ensure_account_info, ht, hr, hz, Bool.false_eq_true, if_false,
            if_true]
          exact ih cfg v hv2
        | false =>
          simp only [ensure_account_info, ht, hr, hz, Bool.false_eq_true, if_false]
          rw [ih _ v hv2, update_findE_other a.username info.user_id v _ _ hv1]

theorem ensure_cached_all (resolver : String → Option ResolvedInfo) :
    ∀ (accounts : List Account) (cfg : ConfigState),
      (∀ a ∈ accounts, optTruthy a.user_id = true) →
      ensure_account_info resolver accounts cfg = (accounts, cfg, 0) := by
  intro accounts
  induction accounts with
  | nil => intro cfg _; rfl
  | cons a rest ih =>
    intro cfg h
    have ha := h a (List.mem_cons_self a rest)
    have hrest := ih cfg (fun b hb => h b (List.mem_cons_of_mem a hb))
    simp [ensure_account_info, ha, hrest]

theorem ensure_caches (resolver : String → Option ResolvedInfo) (hres : ResolverOK resolver) :
    ∀ (accounts : List Account) (cfg : ConfigState),
      (accounts.map (fun a => a.username)).Nodup →
      (∀ a ∈ accounts, ∃ e, findE cfg a.username = some e ∧ e.user_id = a.user_id) →
      ∀ a ∈ accounts, ∃ e2,
        findE (ensure_account_info resolver accounts cfg).2.1 a.username = some e2 ∧
          optTruthy e2.user_id = true := by
  intro accounts
  induction accounts with
  | nil => intro cfg _ _ a ha; cases ha
  | cons a0 rest ih =>
    intro cfg hnd hcorr a ha
    have hnd0 : (∀ x ∈ rest, ¬ x.username = a0.username) ∧
        (rest.map (fun a => a.username)).Nodup := by
      simpa using hnd
    have hnotin : a0.username ∉ rest.map (fun a => a.username) := by
      intro hx
      rcases List.mem_map.mp hx with ⟨b, hb, hbeq⟩
      exact hnd0.1 b hb hbeq
    have hnd' : (rest.map (fun a => a.username)).Nodup := hnd0.2
    cases ht : optTruthy a0.user_id with
    | true =>
      have heq : (ensure_account_info resolver (a0 :: rest) cfg).2.1
          = (ensure_account_info resolver rest cfg).2.1 := by
        simp [ensure_account_info, ht]
      rcases List.mem_cons.mp ha with rfl | ha'
      · rcases hcorr a (List.mem_cons_self a rest) with ⟨e, hfe, hid⟩
        refine ⟨e, ?_, ?_⟩
        · rw [heq, ensure_findE_other resolver rest cfg a.username hnotin]
          exact hfe
        · rw [hid]
          exact ht
      · rw [heq] at *
        have hcorr' : ∀ b ∈ rest, ∃ e, findE cfg b.username = some e ∧ e.user_id = b.user_id :=
          fun b hb => hcorr b (List.mem_cons_of_mem a0 hb)
        rcases ih cfg hnd' hcorr' a ha' with ⟨e2, hf2, ht2⟩
        exact ⟨e2, by rw [heq]; exact hf2, ht2⟩
    | false =>
      rcases hres a0.username with ⟨info, hri, hid0⟩
      have hz : (info.user_id == "") = false := beq_eq_false_iff_ne.mpr hid0
      have heq : (ensure_account_info resolver (a0 :: rest) cfg).2.1
          = (ensure_account_info resolver rest
              (update_account_info cfg a0.username info.user_id
                info.display_name info.description).1).2.1 := by
        simp [ensure_account_info, ht, hri, hz]
      rcases hcorr a0 (List.mem_cons_self a0 rest) with ⟨e, hfe, hid⟩
      rcases List.mem_cons.mp ha with rfl | ha'
      · rcases update_findE_self a.username info.user_id info.display_name info.description
            cfg e hfe with ⟨e2, hf2, hid2⟩
        refine ⟨e2, ?_, ?_⟩
        · rw [heq, ensure_findE_other resolver rest _ a.username hnotin]
          exact hf2
        · rw [hid2]
          simp [optTruthy, hz]
      · have hcorr' : ∀ b ∈ rest, ∃ e,
            findE (update_account_info cfg a0.username info.user_id
              info.display_name info.description).1 b.username = some e ∧
              e.user_id = b.user_id := by
          intro b hb
          have hbne : b.username ≠ a0.username := by
            intro hx
            exact hnotin (hx ▸ List.mem_map.mpr ⟨b, hb, rfl⟩)
          rw [update_findE_other a0.username info.user_id b.username _ _ hbne cfg]
          exact hcorr b (List.mem_cons_of_mem a0 hb)
        rcases ih _ hnd' hcorr' a ha' with ⟨e2, hf2, ht2⟩
        exact ⟨e2, by rw [heq]; exact hf2, ht2⟩

theorem fetch_resolve_calls_zero (l : List Account)
    (h : ∀ a ∈ l, optTruthy a.user_id = true) : fetch_resolve_calls l = 0 := by
  unfold fetch_resolve_calls
  rw [List.length_eq_zero, List.filter_eq_nil_iff]
  intro a ha
  simp [h a ha]

theorem resolve_phase_caches (resolver : String → Option ResolvedInfo)
    (hres : ResolverOK resolver) (cfg : ConfigState) (hwf : WFConfig cfg) :
    ∀ e1 ∈ (resolve_phase resolver cfg).2.1, optTruthy e1.user_id = true := by
  intro e1 he1
  obtain ⟨hnd, hprops⟩ := hwf
  have hga : get_accounts cfg = cfg.map toAcc := get_accounts_wf cfg hprops
  have husr : (cfg.map toAcc).map (fun a => a.username) = cfg.map (fun e => e.username) := by
    rw [List.map_map]
    rfl
  have hndacc : ((cfg.map toAcc).map (fun a => a.username)).Nodup := by
    rw [husr]
    exact hnd
  have hcorr : ∀ a ∈ cfg.map toAcc, ∃ e, findE cfg a.username = some e ∧
      e.user_id = a.user_id := by
    intro a ha
    rcases List.mem_map.mp ha with ⟨e, he, rfl⟩
    exact ⟨e, findE_self_of_nodup cfg hnd e he, rfl⟩
  have hcache := ensure_caches resolver hres (cfg.map toAcc) cfg hndacc hcorr
  unfold resolve_phase at he1
  rw [hga] at he1
  have hmap1 : ((ensure_account_info resolver (cfg.map toAcc) cfg).2.1).map
      (fun e => e.username) = cfg.map (fun e => e.username) :=
    ensure_cfg_username resolver _ cfg
  have hnd1 : (((ensure_account_info resolver (cfg.map toAcc) cfg).2.1).map
      (fun e => e.username)).Nodup := by
    rw [hmap1]
    exact hnd
  have hu1 : e1.username ∈ cfg.map (fun e => e.username) := by
    rw [← hmap1]
    exact List.mem_map.mpr ⟨e1, he1, rfl⟩
  rcases List.mem_map.mp hu1 with ⟨e, he, heq⟩
  have hacc : toAcc e ∈ cfg.map toAcc := List.mem_map.mpr ⟨e, he, rfl⟩
  rcases hcache (toAcc e) hacc with ⟨e2, hf2, ht2⟩
  have hself := findE_self_of_nodup _ hnd1 e1 he1
  have hus : (toAcc e).username = e1.username := heq
  rw [hus] at hf2
  rw [hself] at hf2
  cases hf2
  exact ht2

theorem wf_after_resolve (resolver : String → Option ResolvedInfo) (cfg : ConfigState)
    (hwf : WFConfig cfg) : WFConfig (resolve_phase resolver cfg).2.1 := by
  obtain ⟨hnd, hprops⟩ := hwf
  have hmap1 := ensure_cfg_username resolver (get_accounts cfg) cfg
  constructor
  · unfold resolve_phase
    rw [hmap1]
    exact hnd
  · intro e1 he1
    have hu1 : e1.username ∈ cfg.map (fun e => e.username) := by
      rw [← hmap1]
      exact List.mem_map.mpr ⟨e1, he1, rfl⟩
    rcases List.mem_map.mp hu1 with ⟨e, he, heq⟩
    rw [← heq]
    exact hprops e he

theorem run_cycle_fix (resolver : String → Option ResolvedInfo) (cfg1 : ConfigState)
    (hwf1 : WFConfig cfg1) (hall : ∀ e ∈ cfg1, optTruthy e.user_id = true) :
    run_cycle resolver cfg1 = (cfg1, 0) := by
  have hga : get_accounts cfg1 = cfg1.map toAcc := get_accounts_wf cfg1 hwf1.2
  have htr : ∀ a ∈ cfg1.map toAcc, optTruthy a.user_id = true := by
    intro a ha
    rcases List.mem_map.mp ha with ⟨e, he, rfl⟩
    exact hall e he
  have hens := ensure_cached_all resolver (cfg1.map toAcc) cfg1 htr
  unfold run_cycle resolve_phase
  rw [hga, hens]
  simp [fetch_resolve_calls_zero _ htr]

/-! ## C8: identity resolution happens at most once -/

/-- Conclusion of C8: after the first cycle every config entry carries a
cached identifier; the config reaches a fixpoint, so later cycles issue
zero further resolution calls (the call total over any number of cycles
equals the first cycle's total); and the cycle's config state is exactly
the one the resolution phase wrote, before any fetching — fetch outcomes
never touch it. -/
def c8Concl (resolver : String → Option ResolvedInfo) (cfg : ConfigState) (n : Nat) : Prop :=
  (∀ e ∈ cycles_state resolver cfg 1, optTruthy e.user_id = true) ∧
  cycles_state resolver cfg (n + 1) = cycles_state resolver cfg 1 ∧
  total_resolve_calls resolver cfg (n + 1) = total_resolve_calls resolver cfg 1 ∧
  (run_cycle resolver cfg).1 = (resolve_phase resolver cfg).2.1

/-- C8: with the registry invariant (distinct, stripped, non-empty
handles) and a provider that answers resolution calls, one successful
resolution per entity is persisted to the config immediately during the
resolution phase (independent of the fetch), and no subsequent ingestion
cycle issues another resolution call for any entity — the resolve-call
total stays at the first cycle's value forever. -/
theorem resolve_called_once (resolver : String → Option ResolvedInfo) (cfg : ConfigState)
    (n : Nat) (hwf : WFConfig cfg) (hres : ResolverOK resolver) : c8Concl resolver cfg n := by
  have hstate1 : cycles_state resolver cfg 1 = (resolve_phase resolver cfg).2.1 := rfl
  have hall : ∀ e ∈ (resolve_phase resolver cfg).2.1, optTruthy e.user_id = true :=
    resolve_phase_caches resolver hres cfg hwf
  have hwf1 : WFConfig (resolve_phase resolver cfg).2.1 := wf_after_resolve resolver cfg hwf
  have hfix : run_cycle resolver (resolve_phase resolver cfg).2.1
      = ((resolve_phase resolver cfg).2.1, 0) := run_cycle_fix resolver _ hwf1 hall
  have hstates : ∀ m, cycles_state resolver cfg (m + 1) = (resolve_phase resolver cfg).2.1 := by
    intro m
    induction m with
    | zero => exact hstate1
    | succ k ih =>
      show (run_cycle resolver (cycles_state resolver cfg (k + 1))).1
          = (resolve_phase resolver cfg).2.1
      rw [ih, hfix]
  refine ⟨?_, ?_, ?_, rfl⟩
  · rw [hstate1]
    exact hall
  · rw [hstates n, hstate1]
  · induction n with
    | zero => rfl
    | succ k ih =>
      show total_resolve_calls resolver cfg (k + 1)
          + (run_cycle resolver (cycles_state resolver cfg (k + 1))).2
          = total_resolve_calls resolver cfg 1
      rw [hstates k, hfix, ih]
      simp

def cfg8 : ConfigState := [{ username := "bob" }, { username := "carol", user_id := some ("u2") }]

def res8 : String → Option ResolvedInfo := fun _ => some { user_id := "id1" }

/-- Witness for C8: a two-entry config (one uncached, one cached) with
an always-succeeding resolver, across three cycles. -/
theorem resolve_called_once_witness :
    WFConfig cfg8 ∧ ResolverOK res8 ∧ c8Concl res8 cfg8 2 :=
  ⟨by constructor
      · decide
      · decide,
   fun u => ⟨{ user_id := "id1" }, rfl, by decide⟩,
   resolve_called_once res8 cfg8 2
     (by constructor
         · decide
         · decide)
     (fun u => ⟨{ user_id := "id1" }, rfl, by decide⟩)⟩
